import Mathlib

/-!
Verification development for the ABI contract-interaction UI
(`src/app/components/ContractInteraction.tsx`).

The component's logic is embedded shallowly:

* decoded call results (the values the ethers client library hands back and
  `JSON.parse` output) are modelled by the inductive `JsValue`;
* the recursive pretty-printer `formatResult` (source lines 129-190) is a
  Lean function returning `Option String`, where `none` models a thrown
  exception (`BigInt(...)` on a malformed numeric string);
* the ABI filter/sort of `generateContract` (lines 104-117), the result
  history updates of `handleMethodCall` (lines 215-257), the RPC handler
  `handleCustomRpcChange` (lines 64-80) and the `bytes32` argument coercion
  of the form `onSubmit` handler (lines 356-378) are plain functions over an
  explicit `AppState`;
* JavaScript string builtins used by the source (`Number`, `BigInt`,
  `String.prototype.localeCompare`, `padEnd`, `slice`) are modelled
  explicitly below, each with a comment describing the modelled fragment.
-/

/-- Model of the JavaScript values that occur in this component: `JSON.parse`
output and decoded call results.  Per the data model, decoded scalars are
big integers, strings and booleans (ethers v6 decodes all numeric ABI types
to `bigint`), so no separate floating-point constructor is needed;
`vNull`/`vUndefined` model the two JS nullish values. -/
inductive JsValue where
  | vNull
  | vUndefined
  | vBool (b : Bool)
  | vBigInt (i : Int)
  | vStr (s : String)
  | vArr (elems : List JsValue)
  | vObj (fields : List (String × JsValue))
deriving Repr

namespace JsValue

mutual

def beq : JsValue → JsValue → Bool
  | vNull, vNull => true
  | vUndefined, vUndefined => true
  | vBool a, vBool b => a == b
  | vBigInt a, vBigInt b => a == b
  | vStr a, vStr b => a == b
  | vArr a, vArr b => beqList a b
  | vObj a, vObj b => beqFields a b
  | _, _ => false

def beqList : List JsValue → List JsValue → Bool
  | [], [] => true
  | a :: as, b :: bs => beq a b && beqList as bs
  | _, _ => false

def beqFields : List (String × JsValue) → List (String × JsValue) → Bool
  | [], [] => true
  | (k, v) :: as, (k2, v2) :: bs => k == k2 && beq v v2 && beqFields as bs
  | _, _ => false

end

mutual

theorem beq_iff : ∀ a b : JsValue, beq a b = true ↔ a = b
  | vNull, b => by cases b <;> simp [beq]
  | vUndefined, b => by cases b <;> simp [beq]
  | vBool a, b => by cases b <;> simp [beq]
  | vBigInt a, b => by cases b <;> simp [beq]
  | vStr a, b => by cases b <;> simp [beq]
  | vArr xs, b => by
      cases b with
      | vArr ys => simp [beq, beqList_iff xs ys]
      | vNull | vUndefined | vBool b | vBigInt i | vStr s | vObj fs => simp [beq]
  | vObj fs, b => by
      cases b with
      | vObj gs => simp [beq, beqFields_iff fs gs]
      | vNull | vUndefined | vBool b | vBigInt i | vStr s | vArr xs => simp [beq]

theorem beqList_iff : ∀ a b : List JsValue, beqList a b = true ↔ a = b
  | [], b => by cases b <;> simp [beqList]
  | x :: xs, b => by
      cases b with
      | nil => simp [beqList]
      | cons y ys => simp [beqList, beq_iff x y, beqList_iff xs ys]

theorem beqFields_iff : ∀ a b : List (String × JsValue), beqFields a b = true ↔ a = b
  | [], b => by cases b <;> simp [beqFields]
  | (k, v) :: xs, b => by
      cases b with
      | nil => simp [beqFields]
      | cons y ys =>
          obtain ⟨k2, v2⟩ := y
          simp [beqFields, beq_iff v v2, beqFields_iff xs ys, and_assoc]

end

instance : DecidableEq JsValue := fun a b =>
  decidable_of_iff (beq a b = true) (beq_iff a b)

/-- JS nullish test (`=== null || === undefined`, the values skipped by `??`). -/
def isNullish : JsValue → Bool
  | vNull => true
  | vUndefined => true
  | _ => false

/-- `typeof v === 'object' && v !== null` — arrays and plain objects.
(`vNull` is excluded, mirroring the explicit `result !== null` checks.) -/
def isObjectLike : JsValue → Bool
  | vArr _ => true
  | vObj _ => true
  | _ => false

/-- `Array.isArray`. -/
def isArray : JsValue → Bool
  | vArr _ => true
  | _ => false

end JsValue

/-- The JS nullish-coalescing operator `a ?? b`. -/
def jsCoalesce (a b : JsValue) : JsValue :=
  if a.isNullish then b else a

/-- First-match association lookup inside an object literal. -/
def lookupField : List (String × JsValue) → String → JsValue
  | [], _ => .vUndefined
  | (k, v) :: rest, key => if k = key then v else lookupField rest key

/-- Parse a string of decimal digits as an array index.  Every array access
in the source uses a loop index or its `toString`, which is a canonical
numeral, so an all-digits check suffices to model JS index coercion here. -/
def parseArrayIndex (key : String) : Option Nat :=
  if key.data ≠ [] ∧ key.data.all (fun c => '0' ≤ c && c ≤ '9') then
    some (key.data.foldl (fun n c => n * 10 + (c.toNat - '0'.toNat)) 0)
  else none

/-- JS property access `v[key]` for the accesses the component performs:
string keys on objects, and numeric keys on arrays.  A missing property is
`undefined`. -/
def jsGet : JsValue → String → JsValue
  | .vObj fs, key => lookupField fs key
  | .vArr xs, key =>
      match parseArrayIndex key with
      | some i => xs.getD i .vUndefined
      | none => .vUndefined
  | _, _ => .vUndefined

/- ### JS string-to-number builtins

`formatResult` calls `isNaN(Number(s))` and `BigInt(s)` on strings.  These
are modelled by the two parsers below, following the ECMAScript grammars
`StringNumericLiteral` (for `Number`) and `StringIntegerLiteral` (for
`BigInt`) over ASCII input. -/

def charListPrefix : List Char → List Char → Bool
  | [], _ => true
  | _ :: _, [] => false
  | a :: as, b :: bs => a = b && charListPrefix as bs

/-- Models `String.prototype.startsWith` (decided over the character
sequences). -/
def jsStartsWith (s pre : String) : Bool :=
  charListPrefix pre.data s.data

/-- ASCII whitespace accepted by the JS string-to-number conversions. -/
def isJsSpace (c : Char) : Bool :=
  c = ' ' || c = '\t' || c = '\n' || c = '\r' || c = '\x0b' || c = '\x0c'

/-- Strip leading and trailing whitespace, as both conversions do. -/
def jsTrim (s : String) : List Char :=
  ((s.data.dropWhile isJsSpace).reverse.dropWhile isJsSpace).reverse

def isDecDigit (c : Char) : Bool := '0' ≤ c && c ≤ '9'

def isHexDigitChar (c : Char) : Bool :=
  isDecDigit c || ('a' ≤ c && c ≤ 'f') || ('A' ≤ c && c ≤ 'F')

def isOctDigitChar (c : Char) : Bool := '0' ≤ c && c ≤ '7'

def isBinDigitChar (c : Char) : Bool := c = '0' || c = '1'

/-- Matches an `ExponentPart` occupying the whole remaining input, or the
empty remainder (the exponent is optional). -/
def isExpTail (cs : List Char) : Bool :=
  match cs with
  | [] => true
  | c :: rest =>
      if c = 'e' || c = 'E' then
        let r := match rest with
          | '+' :: r => r
          | '-' :: r => r
          | r => r
        decide (r ≠ []) && r.all isDecDigit
      else false

/-- `StrUnsignedDecimalLiteral`: `Infinity`, `digits [. digits] [exp]`,
or `. digits [exp]`. -/
def matchesUnsignedDecimal (cs : List Char) : Bool :=
  if cs = ['I', 'n', 'f', 'i', 'n', 'i', 't', 'y'] then true
  else
    let intPart := cs.takeWhile isDecDigit
    let rest := cs.dropWhile isDecDigit
    if intPart ≠ [] then
      match rest with
      | '.' :: r2 => isExpTail (r2.dropWhile isDecDigit)
      | r2 => isExpTail r2
    else
      match rest with
      | '.' :: r2 =>
          decide (r2.takeWhile isDecDigit ≠ []) && isExpTail (r2.dropWhile isDecDigit)
      | _ => false

/-- `NonDecimalIntegerLiteral`: `0x`/`0o`/`0b` with at least one digit. -/
def matchesNonDecimalInteger (cs : List Char) : Bool :=
  match cs with
  | '0' :: x :: rest =>
      if x = 'x' || x = 'X' then decide (rest ≠ []) && rest.all isHexDigitChar
      else if x = 'o' || x = 'O' then decide (rest ≠ []) && rest.all isOctDigitChar
      else if x = 'b' || x = 'B' then decide (rest ≠ []) && rest.all isBinDigitChar
      else false
  | _ => false

def matchesStrNumericLiteral (cs : List Char) : Bool :=
  matchesNonDecimalInteger cs ||
  (match cs with
   | '+' :: r => matchesUnsignedDecimal r
   | '-' :: r => matchesUnsignedDecimal r
   | r => matchesUnsignedDecimal r)

/-- Models `isNaN(Number(s))`: whitespace-only input converts to `0` (not
`NaN`); otherwise the trimmed input must match `StrNumericLiteral`. -/
def jsNumberIsNaN (s : String) : Bool :=
  let cs := jsTrim s
  if cs = [] then false else !(matchesStrNumericLiteral cs)

def decDigitVal (c : Char) : Nat := c.toNat - '0'.toNat

def hexDigitVal (c : Char) : Nat :=
  if isDecDigit c then decDigitVal c
  else if 'a' ≤ c && c ≤ 'f' then c.toNat - 'a'.toNat + 10
  else c.toNat - 'A'.toNat + 10

def digitsToNat (base : Nat) (val : Char → Nat) (cs : List Char) : Nat :=
  cs.foldl (fun acc c => acc * base + val c) 0

/-- Models `BigInt(s)` on a string: `some` its value, `none` a thrown
`SyntaxError` (`StringIntegerLiteral`: optional sign only before decimal
digits; `0x`/`0o`/`0b` literals unsigned; no fraction, no exponent;
empty/whitespace-only input is `0n`). -/
def jsBigIntOfString (s : String) : Option Int :=
  match jsTrim s with
  | [] => some 0
  | '0' :: x :: rest =>
      if x = 'x' || x = 'X' then
        if rest ≠ [] ∧ rest.all isHexDigitChar then some (digitsToNat 16 hexDigitVal rest) else none
      else if x = 'o' || x = 'O' then
        if rest ≠ [] ∧ rest.all isOctDigitChar then some (digitsToNat 8 decDigitVal rest) else none
      else if x = 'b' || x = 'B' then
        if rest ≠ [] ∧ rest.all isBinDigitChar then some (digitsToNat 2 decDigitVal rest) else none
      else if ('0' :: x :: rest).all isDecDigit then
        some (digitsToNat 10 decDigitVal ('0' :: x :: rest))
      else none
  | '+' :: r =>
      if r ≠ [] ∧ r.all isDecDigit then some (digitsToNat 10 decDigitVal r) else none
  | '-' :: r =>
      if r ≠ [] ∧ r.all isDecDigit then some (-(digitsToNat 10 decDigitVal r : Int)) else none
  | r =>
      if r.all isDecDigit then some (digitsToNat 10 decDigitVal r) else none

/-- JS `String(v)` conversion for the modelled values (`String` on an array
joins the elements' conversions with `","`, rendering nullish elements as
the empty string). -/
def jsToString : JsValue → String
  | .vNull => "null"
  | .vUndefined => "undefined"
  | .vBool b => if b then "true" else "false"
  | .vBigInt i => toString i
  | .vStr s => s
  | .vObj _ => "[object Object]"
  | .vArr xs =>
      String.intercalate ","
        (xs.attach.map fun p => if p.1.isNullish then "" else jsToString p.1)
decreasing_by
  have h := List.sizeOf_lt_of_mem p.2
  simp only [JsValue.vArr.sizeOf_spec]
  omega

example : jsNumberIsNaN "1.5" = false := by decide
example : jsBigIntOfString "1.5" = none := by decide
example : jsBigIntOfString " 12 " = some 12 := by decide
example : jsBigIntOfString "0x1f" = some 31 := by decide
example : jsBigIntOfString "-7" = some (-7) := by decide
example : jsBigIntOfString "1e3" = none := by decide
example : jsNumberIsNaN "1e3" = false := by decide
example : jsNumberIsNaN "abc" = true := by decide
example : jsNumberIsNaN "" = false := by decide
example : jsBigIntOfString "" = some 0 := by decide

/-- One ABI output slot (`ContractMethodOutput` in the source):
`{ name, type, components? }`, recursive through tuple components. -/
inductive ContractMethodOutput where
  | mk (name : String) (type : String) (components : Option (List ContractMethodOutput))
deriving Repr

def ContractMethodOutput.name : ContractMethodOutput → String
  | .mk n _ _ => n

def ContractMethodOutput.type : ContractMethodOutput → String
  | .mk _ t _ => t

def ContractMethodOutput.components : ContractMethodOutput → Option (List ContractMethodOutput)
  | .mk _ _ c => c

theorem ContractMethodOutput.sizeOf_components {o : ContractMethodOutput}
    {comps : List ContractMethodOutput} (h : o.components = some comps) :
    sizeOf comps < sizeOf o := by
  cases o with
  | mk n t c =>
      simp only [ContractMethodOutput.components] at h
      subst h
      simp only [ContractMethodOutput.mk.sizeOf_spec, Option.some.sizeOf_spec]
      omega

theorem ContractMethodOutput.sizeOf_lt_of_mem_components {o : ContractMethodOutput}
    {comps : List ContractMethodOutput} (h : o.components = some comps)
    {c : ContractMethodOutput} (hc : c ∈ comps) : sizeOf c < sizeOf o :=
  lt_trans (List.sizeOf_lt_of_mem hc) (ContractMethodOutput.sizeOf_components h)

/-- The `abiOutput` parameter of `formatResult`: a single `MethodOutput`
or the full outputs sequence of a method (the source's union type
`ContractMethodOutput | ContractMethodOutput[]`). -/
abbrev OutputSpec := ContractMethodOutput ⊕ List ContractMethodOutput

/-- Collect a list of fallible computations; a `none` models an exception
propagating out of a JS `.map` callback. -/
def optionList : List (Option α) → Option (List α)
  | [] => some []
  | none :: _ => none
  | some a :: rest => (optionList rest).map (a :: ·)

/-- Lines 179-189: the scalar tail of `formatResult`.  The
`typeof result === 'number'` disjunct of line 186 is vacuous here because
decoded results carry no JS `number` values (ethers v6 decodes numerics to
`bigint`); a numeric-looking string reaches `BigInt(result)`, which throws
(`none`) when the string is not a valid integer literal. -/
def formatResultScalar (result : JsValue) : Option String :=
  match result with
  | JsValue.vBigInt i => some (toString i)
  | JsValue.vStr s =>
      if jsStartsWith s "0x" then some s
      else if !(jsNumberIsNaN s) then (jsBigIntOfString s).map (fun i => toString i)
      else some (jsToString (JsValue.vStr s))
  | r => some (jsToString r)

/-!
Lines 129-190: the recursive result formatter.  `none` models a thrown
exception.  The branch structure follows the source in order: nullish check
(130-132), root outputs-sequence branch (135-148), tuple branch (151-167),
the array-of-tuples branch (168-171 — unreachable, because every array
already satisfies the line-153 test), plain arrays (174-177) and scalars
(179-189).  The three `.map((x, idx) => ...)` loops of the source are the
three indexed list walkers of the mutual block; a `none` from a walker
models an exception escaping the whole `.map`/`.join`.
-/

/-- Lines 156-161: resolve the value of tuple component `comp` at index
`idx`: an array result is indexed positionally (line 158); otherwise
`resultObj[comp.name] ?? resultObj[idx] ?? resultObj[idx.toString()]`
(line 160; a numeric and a stringified index denote the same JS property). -/
def tupleComponentValue (result : JsValue) (comp : ContractMethodOutput)
    (idx : Nat) : JsValue :=
  match result with
  | JsValue.vArr _ => jsGet result (Nat.repr idx)
  | _ =>
      jsCoalesce
        (jsCoalesce (jsGet result comp.name) (jsGet result (Nat.repr idx)))
        (jsGet result (Nat.repr idx))

mutual

/-- Lines 129-190: `formatResult(result, abiOutput)`. -/
def formatResult (result : JsValue) (abiOutput : OutputSpec) : Option String :=
  if result.isNullish then
    some "null"
  else
    match abiOutput with
    | Sum.inr outputs =>
        -- lines 135-148
        if result.isObjectLike then
          (formatRootSlots result outputs 0).map
            (fun fvs => "\x7b\n  " ++ String.intercalate ",\n  " fvs ++ "\n\x7d")
        else
          formatResultScalar result
    | Sum.inl (ContractMethodOutput.mk nm ty (some comps)) =>
        if ty = "tuple" then
          -- line 153: (typeof result === 'object' && result !== null) || Array.isArray(result)
          if result.isObjectLike then
            (formatTupleComps result comps 0).map
              (fun fvs => "\x7b\n  " ++ String.intercalate ",\n  " fvs ++ "\n\x7d")
          else
            match result with
            | JsValue.vArr items =>
                -- lines 168-171 (unreachable: arrays take the branch above)
                (formatArrayElems items (Sum.inr comps)).map
                  (fun fvs => "[\n" ++ String.intercalate ",\n" fvs ++ "\n]")
            | _ => formatResultScalar result
        else
          match result with
          | JsValue.vArr items =>
              -- lines 174-177
              (formatArrayElems items (Sum.inl (ContractMethodOutput.mk nm ty (some comps)))).map
                (fun fvs => "[ " ++ String.intercalate ", " fvs ++ " ]")
          | _ => formatResultScalar result
    | Sum.inl (ContractMethodOutput.mk nm ty none) =>
        match result with
        | JsValue.vArr items =>
            -- lines 174-177
            (formatArrayElems items (Sum.inl (ContractMethodOutput.mk nm ty none))).map
              (fun fvs => "[ " ++ String.intercalate ", " fvs ++ " ]")
        | _ => formatResultScalar result
termination_by (sizeOf abiOutput, sizeOf result, 1)

/-- Lines 139-143: the `abiOutput.map((output, idx) => ...)` loop of the
root branch.  Line 141 resolves the slot value as
`resultObj[idx] ?? resultObj[idx.toString()] ?? resultObj[output.name]`
(a numeric and a stringified index denote the same JS property). -/
def formatRootSlots (result : JsValue) (outputs : List ContractMethodOutput)
    (idx : Nat) : Option (List String) :=
  match outputs with
  | [] => some []
  | output :: rest =>
      let value :=
        jsCoalesce
          (jsCoalesce (jsGet result (Nat.repr idx)) (jsGet result (Nat.repr idx)))
          (jsGet result output.name)
      match formatResult value (Sum.inl output) with
      | none => none
      | some fv =>
          (formatRootSlots result rest (idx + 1)).map
            (fun fvs => (output.name ++ ": " ++ fv) :: fvs)
termination_by (1 + sizeOf outputs, sizeOf result, 0)

/-- Lines 155-163: the `abiOutput.components.map((comp, idx) => ...)` loop
of the tuple branch; per-component values are resolved by
`tupleComponentValue`. -/
def formatTupleComps (result : JsValue) (comps : List ContractMethodOutput)
    (idx : Nat) : Option (List String) :=
  match comps with
  | [] => some []
  | comp :: rest =>
      match formatResult (tupleComponentValue result comp idx) (Sum.inl comp) with
      | none => none
      | some fv =>
          (formatTupleComps result rest (idx + 1)).map
            (fun fvs => (comp.name ++ ": " ++ fv) :: fvs)
termination_by (1 + sizeOf comps, sizeOf result, 0)

/-- Lines 170 and 176: `result.map((item) => formatResult(item, spec))`. -/
def formatArrayElems (items : List JsValue) (abiOutput : OutputSpec) :
    Option (List String) :=
  match items with
  | [] => some []
  | item :: rest =>
      match formatResult item abiOutput with
      | none => none
      | some fv => (formatArrayElems rest abiOutput).map (fun fvs => fv :: fvs)
termination_by (sizeOf abiOutput, 1 + sizeOf items, 0)

end

/-- The display record of lines 34-39:
`{ methodName, timestamp, result, error }`. -/
structure MethodResult where
  methodName : String
  timestamp : String
  result : String
  error : Bool
deriving Repr, DecidableEq

/-- Lines 224, 245 and 256: `setResults(prev => [newResult, ...prev].slice(0, 10))` —
prepend a result and cap the history at 10 entries. -/
def addResult (newResult : MethodResult) (prev : List MethodResult) :
    List MethodResult :=
  (newResult :: prev).take 10

/-- Line 234: `setResults(prev => [updatedResult, ...prev.slice(1)])` —
replace the head of the history with the confirmed record. -/
def confirmResult (updatedResult : MethodResult) (prev : List MethodResult) :
    List MethodResult :=
  updatedResult :: prev.drop 1

/-- Lines 218-223: the "submitted" record of a state-mutating call. -/
def submittedRecord (methodName timestamp txHash : String) : MethodResult :=
  { methodName := methodName
    timestamp := timestamp
    result := "Transaction sent!\nTransaction Hash: " ++ txHash ++
      "\nWaiting for confirmation..."
    error := false }

/-- Lines 228-233: the "confirmed" record built from the receipt. -/
def confirmedRecord (methodName timestamp receiptHash blockNumber gasUsed : String) :
    MethodResult :=
  { methodName := methodName
    timestamp := timestamp
    result := "Transaction confirmed!\nTransaction Hash: " ++ receiptHash ++
      "\nBlock Number: " ++ blockNumber ++ "\nGas Used: " ++ gasUsed
    error := false }

/-- Lines 215-234: the happy path of a state-mutating call in
`handleMethodCall`.  Returns the history right after the "submitted" update
(line 224) and the history after the "confirmed" update (line 234). -/
def mutatingCallResults (methodName ts1 ts2 txHash receiptHash blockNumber gasUsed : String)
    (prev : List MethodResult) : List MethodResult × List MethodResult :=
  let afterSubmit := addResult (submittedRecord methodName ts1 txHash) prev
  (afterSubmit,
   confirmResult (confirmedRecord methodName ts2 receiptHash blockNumber gasUsed) afterSubmit)

/-- The operations `handleMethodCall` and `generateContract` perform on the
`results` history: the capped prepend of lines 224/245/256, the head
replacement of line 234, and the reset of line 117. -/
inductive HistoryOp where
  | add (r : MethodResult)
  | confirm (u : MethodResult)
  | reset
deriving Repr, DecidableEq

def applyHistoryOp (prev : List MethodResult) : HistoryOp → List MethodResult
  | .add r => addResult r prev
  | .confirm u => confirmResult u prev
  | .reset => []

/-- The result history after a sequence of operations in a fresh session
(`useState` initialises `results` to `[]`). -/
def applyHistoryOps (ops : List HistoryOp) : List MethodResult :=
  ops.foldl applyHistoryOp []

/- ### Method derivation (lines 104-115) -/

def isStringVal : JsValue → Bool
  | .vStr _ => true
  | _ => false

def isArrayVal : JsValue → Bool
  | .vArr _ => true
  | _ => false

/-- Lines 106-112: the filter predicate of `generateContract` —
`item.type === 'function' && typeof item.name === 'string' &&
Array.isArray(item.inputs) && Array.isArray(item.outputs) &&
typeof item.stateMutability === 'string'`. -/
def isFunctionItem (item : JsValue) : Bool :=
  jsGet item "type" == JsValue.vStr "function" &&
  isStringVal (jsGet item "name") &&
  isArrayVal (jsGet item "inputs") &&
  isArrayVal (jsGet item "outputs") &&
  isStringVal (jsGet item "stateMutability")

/-- The `name` field of a retained item (a string for every item passing
`isFunctionItem`). -/
def itemName (item : JsValue) : String :=
  match jsGet item "name" with
  | .vStr s => s
  | _ => ""

def asciiLowerNat (c : Char) : Nat :=
  let n := c.toNat
  if 65 ≤ n ∧ n ≤ 90 then n + 32 else n

/-- Primary collation weight: the case-folded code point. -/
def primaryWeight (c : Char) : Nat := asciiLowerNat c

/-- Tertiary collation weight: lowercase sorts before uppercase. -/
def tertiaryWeight (c : Char) : Nat :=
  if 65 ≤ c.toNat ∧ c.toNat ≤ 90 then 1 else 0

def natListCompare : List Nat → List Nat → Ordering
  | [], [] => .eq
  | [], _ :: _ => .lt
  | _ :: _, [] => .gt
  | a :: as, b :: bs =>
      if a < b then .lt else if b < a then .gt else natListCompare as bs

def primaryKey (s : String) : List Nat := s.data.map primaryWeight

def tertiaryKey (s : String) : List Nat := s.data.map tertiaryWeight

/-- Models `a.localeCompare(b)` (line 113) under the default locale,
restricted to ASCII letters and digits (the character set of ABI method
names): the primary pass compares case-folded code points, and equal
primaries are tie-broken character-wise with lowercase before uppercase,
as in the root ICU collation used by `Intl.Collator` defaults. -/
def localeCompare (a b : String) : Int :=
  match natListCompare (primaryKey a) (primaryKey b) with
  | .lt => -1
  | .gt => 1
  | .eq =>
      match natListCompare (tertiaryKey a) (tertiaryKey b) with
      | .lt => -1
      | .gt => 1
      | .eq => 0

/-- The order `.sort((a, b) => a.name.localeCompare(b.name))` establishes:
`a` may stay before `b` iff the comparator is non-positive. -/
def methodLe (a b : JsValue) : Prop :=
  localeCompare (itemName a) (itemName b) ≤ 0

instance : DecidableRel methodLe := fun a b =>
  inferInstanceAs (Decidable (localeCompare (itemName a) (itemName b) ≤ 0))

/-- Lines 105-113: `parsedAbi.filter(...).sort((a, b) => a.name.localeCompare(b.name))`.
The ES2019 `Array.prototype.sort` is a stable sort driven by the comparator;
it is modelled by a stable insertion sort under `methodLe`. -/
def contractMethods (parsedAbi : List JsValue) : List JsValue :=
  List.insertionSort methodLe (parsedAbi.filter isFunctionItem)

/- ### Component state and `generateContract` / `handleCustomRpcChange` -/

/-- The `useState` slots of the component that the claims touch
(lines 45-54).  `contract` and `provider` model presence of the
`ethers.Contract` / custom `JsonRpcProvider` objects. -/
structure AppState where
  contract : Bool
  methods : List JsValue
  error : String
  results : List MethodResult
  customRpcUrl : String
  provider : Bool
deriving Repr, DecidableEq

/-- Lines 82-123: `generateContract`.  Inputs: whether a signer is connected,
the `abi` text and `contractAddress` fields, and the outcome of
`JSON.parse(abi)` passed explicitly (`none` = the parse threw, `some items`
= it produced an ABI array).  The `new ethers.Contract(...)` constructor is
external and modelled as succeeding.  Every `throw` lands in the catch of
lines 118-122, which records the message and clears `contract`/`methods`. -/
def generateContract (signer : Bool) (abi contractAddress : String)
    (parsedAbi : Option (List JsValue)) (st : AppState) : AppState :=
  if signer = false then
    { st with error := "Please connect your wallet first",
              contract := false, methods := [] }
  else if abi = "" ∨ contractAddress = "" then
    { st with error := "Please provide both ABI and contract address",
              contract := false, methods := [] }
  else
    match parsedAbi with
    | none =>
        { st with error := "Invalid ABI format",
                  contract := false, methods := [] }
    | some items =>
        { st with contract := true,
                  methods := contractMethods items,
                  error := "",
                  results := [] }

/-- Lines 64-80: `handleCustomRpcChange`.  `connOk` abstracts whether the
external `new JsonRpcProvider(url)` / `getBlockNumber()` round trip
succeeds, and `errMsg` the exception's message
(`error instanceof Error ? error.message : 'Connection failed'`). -/
def handleCustomRpcChange (url : String) (connOk : Bool) (errMsg : String)
    (st : AppState) : AppState :=
  let st1 := { st with customRpcUrl := url }
  if url ≠ "" then
    if connOk then
      { st1 with provider := true, error := "" }
    else
      { st1 with error := "Invalid RPC URL or " ++ errMsg, provider := false }
  else
    { st1 with provider := false }

/- ### bytes32 argument coercion (lines 356-378) -/

/-- `ethers.ZeroHash`: the 32-byte zero word. -/
def zeroHash : String :=
  "0x0000000000000000000000000000000000000000000000000000000000000000"

/-- JS string length (UTF-16 code units). -/
def utf16Length (s : String) : Nat :=
  (s.data.map (fun c => if c.toNat < 0x10000 then 1 else 2)).sum

/-- `String.prototype.padEnd(targetLength, padChar)` for a one-unit pad
character. -/
def padEnd (s : String) (targetLength : Nat) (padChar : Char) : String :=
  s ++ String.mk (List.replicate (targetLength - utf16Length s) padChar)

def hexDigitOfNat (n : Nat) : Char :=
  if n < 10 then Char.ofNat ('0'.toNat + n) else Char.ofNat ('a'.toNat + n - 10)

def byteToHex (b : Nat) : String :=
  String.mk [hexDigitOfNat (b / 16), hexDigitOfNat (b % 16)]

/-- `ethers.hexlify`: `0x`-prefixed lowercase hex of a byte sequence
(bytes carried as `Nat` values below 256). -/
def hexlify (bytes : List Nat) : String :=
  "0x" ++ String.join (bytes.map byteToHex)

def utf8EncodeCharNat (c : Char) : List Nat :=
  let n := c.toNat
  if n < 0x80 then [n]
  else if n < 0x800 then [0xC0 + n / 64, 0x80 + n % 64]
  else if n < 0x10000 then [0xE0 + n / 4096, 0x80 + (n / 64) % 64, 0x80 + n % 64]
  else [0xF0 + n / 262144, 0x80 + (n / 4096) % 64, 0x80 + (n / 64) % 64, 0x80 + n % 64]

/-- `ethers.toUtf8Bytes`: UTF-8 encode a string.  Lean strings are sequences
of Unicode scalar values, so encoding always succeeds; the source's
catch-arm for encoding failure (line 375-377, reachable in JS only through
lone surrogates) has no representable input here. -/
def toUtf8Bytes (s : String) : List Nat :=
  s.data.flatMap utf8EncodeCharNat

/-- Lines 358-378: coercion of a `bytes32`-typed form field.  Empty input
is `ethers.ZeroHash`; a 66-unit `0x` string passes through; any other `0x`
string has its tail padded with `'0'` to 64 units; other text is UTF-8
encoded, hexlified and padded to 66 units. -/
def coerceBytes32 (strValue : String) : String :=
  if strValue = "" then zeroHash
  else if jsStartsWith strValue "0x" ∧ utf16Length strValue = 66 then strValue
  else if jsStartsWith strValue "0x" then
    "0x" ++ padEnd (String.mk (strValue.data.drop 2)) 64 '0'
  else
    padEnd (hexlify (toUtf8Bytes strValue)) 66 '0'

/- ### Which values format without throwing -/

/-- A string the scalar tail (lines 183-189) formats without throwing:
either it short-circuits at the `0x` test, or `Number()` yields `NaN` (so
the plain `String(result)` fallback runs), or `BigInt()` parses it. -/
def safeString (s : String) : Bool :=
  jsStartsWith s "0x" || jsNumberIsNaN s || (jsBigIntOfString s).isSome

mutual

/-- Values free (hereditarily) of strings on which line 187's
`BigInt(result)` would throw. -/
def jsSafe : JsValue → Bool
  | .vStr s => safeString s
  | .vArr xs => jsSafeList xs
  | .vObj fs => jsSafeFields fs
  | _ => true

def jsSafeList : List JsValue → Bool
  | [] => true
  | v :: vs => jsSafe v && jsSafeList vs

def jsSafeFields : List (String × JsValue) → Bool
  | [] => true
  | (_, v) :: fs => jsSafe v && jsSafeFields fs

end

theorem jsSafeList_of_mem {xs : List JsValue} (h : jsSafeList xs = true)
    {v : JsValue} (hv : v ∈ xs) : jsSafe v = true := by
  induction xs with
  | nil => cases hv
  | cons a as ih =>
      rw [jsSafeList, Bool.and_eq_true] at h
      rcases List.mem_cons.1 hv with rfl | hmem
      · exact h.1
      · exact ih h.2 hmem

theorem jsSafe_lookupField {fs : List (String × JsValue)} (h : jsSafeFields fs = true)
    (key : String) : jsSafe (lookupField fs key) = true := by
  induction fs with
  | nil => simp [lookupField, jsSafe]
  | cons p rest ih =>
      obtain ⟨k, v⟩ := p
      rw [jsSafeFields, Bool.and_eq_true] at h
      rw [lookupField]
      by_cases hk : k = key
      · simpa [hk] using h.1
      · simpa [hk] using ih h.2

theorem jsSafe_jsGet {v : JsValue} (h : jsSafe v = true) (key : String) :
    jsSafe (jsGet v key) = true := by
  cases v with
  | vObj fs =>
      rw [jsSafe] at h
      exact jsSafe_lookupField h key
  | vArr xs =>
      rw [jsSafe] at h
      rw [jsGet]
      cases hp : parseArrayIndex key with
      | none => simp [jsSafe]
      | some i =>
          simp only
          cases hx : xs[i]? with
          | none => simp [List.getD, hx, jsSafe]
          | some w =>
              obtain ⟨hlt, rfl⟩ := List.getElem?_eq_some_iff.1 hx
              simp [List.getD, hx]
              exact jsSafeList_of_mem h (List.getElem_mem hlt)
  | vNull => simp [jsGet, jsSafe]
  | vUndefined => simp [jsGet, jsSafe]
  | vBool b => simp [jsGet, jsSafe]
  | vBigInt i => simp [jsGet, jsSafe]
  | vStr s => simp [jsGet, jsSafe]

theorem jsSafe_coalesce {a b : JsValue} (ha : jsSafe a = true) (hb : jsSafe b = true) :
    jsSafe (jsCoalesce a b) = true := by
  rw [jsCoalesce]
  by_cases h : a.isNullish = true <;> simp [h, ha, hb]

theorem formatResultScalar_isSome {v : JsValue} (h : jsSafe v = true) :
    (formatResultScalar v).isSome = true := by
  cases v with
  | vStr s =>
      rw [jsSafe, safeString] at h
      rw [formatResultScalar]
      by_cases h1 : jsStartsWith s "0x" = true
      · simp [h1]
      · by_cases h2 : jsNumberIsNaN s = true
        · simp [h1, h2]
        · simp [h1, h2] at h ⊢
          exact h
  | vNull => simp [formatResultScalar]
  | vUndefined => simp [formatResultScalar]
  | vBool b => simp [formatResultScalar]
  | vBigInt i => simp [formatResultScalar]
  | vArr xs => simp [formatResultScalar]
  | vObj fs => simp [formatResultScalar]

/-- The value line 141 resolves for slot `idx` of the root branch is safe
whenever the decoded result is. -/
theorem jsSafe_rootSlotValue {result : JsValue} (h : jsSafe result = true)
    (output : ContractMethodOutput) (idx : Nat) :
    jsSafe (jsCoalesce (jsCoalesce (jsGet result (Nat.repr idx)) (jsGet result (Nat.repr idx)))
      (jsGet result output.name)) = true :=
  jsSafe_coalesce (jsSafe_coalesce (jsSafe_jsGet h _) (jsSafe_jsGet h _)) (jsSafe_jsGet h _)

theorem jsSafe_tupleComponentValue {result : JsValue} (h : jsSafe result = true)
    (comp : ContractMethodOutput) (idx : Nat) :
    jsSafe (tupleComponentValue result comp idx) = true := by
  cases result <;>
    simp only [tupleComponentValue] <;>
    first
      | exact jsSafe_jsGet h _
      | exact jsSafe_coalesce (jsSafe_coalesce (jsSafe_jsGet h _) (jsSafe_jsGet h _))
          (jsSafe_jsGet h _)

/-- C1 (amended): `formatResult` returns a string (never throws) for every
output spec and every value that contains no string on which `Number()`
succeeds but `BigInt()` fails; every shape not recognised by the
tuple/array/scalar rules falls back to plain string conversion rather than
failing. -/
theorem formatResult_isSome_of_safe (result0 : JsValue) (abiOutput0 : OutputSpec)
    (h0 : jsSafe result0 = true) : (formatResult result0 abiOutput0).isSome = true := by
  revert h0
  refine formatResult.induct
    (fun result abiOutput => jsSafe result = true → (formatResult result abiOutput).isSome = true)
    (fun items abiOutput => jsSafeList items = true → (formatArrayElems items abiOutput).isSome = true)
    (fun result comps idx => jsSafe result = true → (formatTupleComps result comps idx).isSome = true)
    (fun result outputs idx => jsSafe result = true → (formatRootSlots result outputs idx).isSome = true)
    ?k1 ?k2 ?k3 ?k4 ?k5 ?k6 ?k7 ?k8 ?k9 ?k10 ?k11 ?k12 ?k13 ?k14 ?k15 ?k16 ?k17 ?k18 ?k19
    result0 abiOutput0
  case k1 =>
    intro result abiOutput hnull _h
    rw [formatResult.eq_def]
    simp [hnull]
  case k2 =>
    intro result hnull outputs hobj ih h
    cases result with
    | vArr xs =>
        rw [formatResult.eq_def]
        simp [JsValue.isNullish, JsValue.isObjectLike, ih h]
    | vObj fs =>
        rw [formatResult.eq_def]
        simp [JsValue.isNullish, JsValue.isObjectLike, ih h]
    | vNull => simp [JsValue.isNullish] at hnull
    | vUndefined => simp [JsValue.isNullish] at hnull
    | vBool b => simp [JsValue.isObjectLike] at hobj
    | vBigInt i => simp [JsValue.isObjectLike] at hobj
    | vStr s => simp [JsValue.isObjectLike] at hobj
  case k3 =>
    intro result hnull outputs hobj h
    cases result with
    | vArr xs => simp [JsValue.isObjectLike] at hobj
    | vObj fs => simp [JsValue.isObjectLike] at hobj
    | vNull => simp [JsValue.isNullish] at hnull
    | vUndefined => simp [JsValue.isNullish] at hnull
    | vBool b =>
        rw [formatResult.eq_def]
        simp [JsValue.isNullish, JsValue.isObjectLike, formatResultScalar_isSome h]
    | vBigInt i =>
        rw [formatResult.eq_def]
        simp [JsValue.isNullish, JsValue.isObjectLike, formatResultScalar_isSome h]
    | vStr s =>
        rw [formatResult.eq_def]
        simp [JsValue.isNullish, JsValue.isObjectLike, formatResultScalar_isSome h]
  case k4 =>
    intro result hnull nm comps hobj ih h
    cases result with
    | vArr xs =>
        rw [formatResult.eq_def]
        simp [JsValue.isNullish, JsValue.isObjectLike, ih h]
    | vObj fs =>
        rw [formatResult.eq_def]
        simp [JsValue.isNullish, JsValue.isObjectLike, ih h]
    | vNull => simp [JsValue.isNullish] at hnull
    | vUndefined => simp [JsValue.isNullish] at hnull
    | vBool b => simp [JsValue.isObjectLike] at hobj
    | vBigInt i => simp [JsValue.isObjectLike] at hobj
    | vStr s => simp [JsValue.isObjectLike] at hobj
  case k5 =>
    intro nm comps elems hnull hobj ih h
    simp [JsValue.isObjectLike] at hobj
  case k6 =>
    intro result hnull nm comps hobj hnarr h
    cases result with
    | vArr xs => exact absurd rfl (hnarr xs)
    | vObj fs => simp [JsValue.isObjectLike] at hobj
    | vNull => simp [JsValue.isNullish] at hnull
    | vUndefined => simp [JsValue.isNullish] at hnull
    | vBool b =>
        rw [formatResult.eq_def]
        simp [JsValue.isNullish, JsValue.isObjectLike, formatResultScalar_isSome h]
    | vBigInt i =>
        rw [formatResult.eq_def]
        simp [JsValue.isNullish, JsValue.isObjectLike, formatResultScalar_isSome h]
    | vStr s =>
        rw [formatResult.eq_def]
        simp [JsValue.isNullish, JsValue.isObjectLike, formatResultScalar_isSome h]
  case k7 =>
    intro nm ty comps hty elems hnull ih h
    rw [formatResult.eq_def]
    rw [jsSafe] at h
    simp [JsValue.isNullish, hty, ih h]
  case k8 =>
    intro result hnull nm ty comps hty hnarr h
    cases result with
    | vArr xs => exact absurd rfl (hnarr xs)
    | vNull => simp [JsValue.isNullish] at hnull
    | vUndefined => simp [JsValue.isNullish] at hnull
    | vBool b =>
        rw [formatResult.eq_def]
        simp [JsValue.isNullish, hty, formatResultScalar_isSome h]
    | vBigInt i =>
        rw [formatResult.eq_def]
        simp [JsValue.isNullish, hty, formatResultScalar_isSome h]
    | vStr s =>
        rw [formatResult.eq_def]
        simp [JsValue.isNullish, hty, formatResultScalar_isSome h]
    | vObj fs =>
        rw [formatResult.eq_def]
        simp [JsValue.isNullish, hty, formatResultScalar_isSome h]
  case k9 =>
    intro nm ty elems hnull ih h
    rw [formatResult.eq_def]
    rw [jsSafe] at h
    simp [JsValue.isNullish, ih h]
  case k10 =>
    intro result hnull nm ty hnarr h
    cases result with
    | vArr xs => exact absurd rfl (hnarr xs)
    | vNull => simp [JsValue.isNullish] at hnull
    | vUndefined => simp [JsValue.isNullish] at hnull
    | vBool b =>
        rw [formatResult.eq_def]
        simp [JsValue.isNullish, formatResultScalar_isSome h]
    | vBigInt i =>
        rw [formatResult.eq_def]
        simp [JsValue.isNullish, formatResultScalar_isSome h]
    | vStr s =>
        rw [formatResult.eq_def]
        simp [JsValue.isNullish, formatResultScalar_isSome h]
    | vObj fs =>
        rw [formatResult.eq_def]
        simp [JsValue.isNullish, formatResultScalar_isSome h]
  case k11 =>
    intro abiOutput _h
    rw [formatArrayElems]
    simp
  case k12 =>
    intro abiOutput item rest hnone ih h
    rw [jsSafeList, Bool.and_eq_true] at h
    have hs := ih h.1
    rw [hnone] at hs
    simp at hs
  case k13 =>
    intro abiOutput item rest fv hsome ih ihrest h
    rw [jsSafeList, Bool.and_eq_true] at h
    rw [formatArrayElems, hsome]
    simp [ihrest h.2]
  case k14 =>
    intro result idx _h
    rw [formatTupleComps]
    simp
  case k15 =>
    intro result idx output rest hnone ih h
    have hs := ih (jsSafe_tupleComponentValue h output idx)
    rw [hnone] at hs
    simp at hs
  case k16 =>
    intro result idx output rest fv hsome ih ihrest h
    rw [formatTupleComps, hsome]
    simp [ihrest h]
  case k17 =>
    intro result idx _h
    rw [formatRootSlots]
    simp
  case k18 =>
    intro result idx output rest value hnone ih h
    have hs := ih (jsSafe_rootSlotValue h output idx)
    rw [hnone] at hs
    simp at hs
  case k19 =>
    intro result idx output rest value fv hsome ih ihrest h
    rw [formatRootSlots]
    simp only [value] at hsome
    rw [hsome]
    simp [ihrest h]

/- ### Order properties of the comparator model -/

theorem natListCompare_eq_iff : ∀ a b : List Nat, natListCompare a b = .eq ↔ a = b
  | [], [] => by simp [natListCompare]
  | [], _ :: _ => by simp [natListCompare]
  | _ :: _, [] => by simp [natListCompare]
  | a :: as, b :: bs => by
      rw [natListCompare]
      by_cases h1 : a < b
      · simp [h1]
        omega
      · by_cases h2 : b < a
        · simp [h1, h2]
          omega
        · have hab : a = b := by omega
          subst hab
          simp [h1, h2, natListCompare_eq_iff as bs]

theorem natListCompare_swap : ∀ a b : List Nat,
    natListCompare b a = (natListCompare a b).swap
  | [], [] => by simp [natListCompare, Ordering.swap]
  | [], _ :: _ => by simp [natListCompare, Ordering.swap]
  | _ :: _, [] => by simp [natListCompare, Ordering.swap]
  | a :: as, b :: bs => by
      rw [natListCompare, natListCompare]
      by_cases h1 : a < b
      · have h2 : ¬b < a := by omega
        simp [h1, h2, Ordering.swap]
      · by_cases h2 : b < a
        · simp [h1, h2, Ordering.swap]
        · simp [h1, h2, natListCompare_swap as bs]

theorem natListCompare_le_trans : ∀ a b c : List Nat,
    natListCompare a b ≠ .gt → natListCompare b c ≠ .gt → natListCompare a c ≠ .gt
  | [], _, c => fun _ _ => by
      cases c <;> simp [natListCompare]
  | _ :: _, [], _ => fun h _ => by simp [natListCompare] at h
  | a :: as, b :: bs, [] => fun _ h => by simp [natListCompare] at h
  | a :: as, b :: bs, c :: cs => fun h1 h2 => by
      rw [natListCompare] at h1 h2 ⊢
      by_cases hab : a < b
      · by_cases hbc : b < c
        · simp [show a < c by omega]
        · by_cases hcb : c < b
          · simp [hbc, hcb] at h2
          · simp [show a < c by omega]
      · by_cases hba : b < a
        · simp [hab, hba] at h1
        · have : a = b := by omega
          subst this
          by_cases hbc : a < c
          · simp [hbc]
          · by_cases hcb : c < a
            · simp [hbc, hcb] at h2
            · simp [hab, hba, hbc, hcb] at h1 h2 ⊢
              exact natListCompare_le_trans as bs cs h1 h2

theorem localeCompare_le_iff (a b : String) :
    localeCompare a b ≤ 0 ↔
      (natListCompare (primaryKey a) (primaryKey b) = .lt ∨
       (natListCompare (primaryKey a) (primaryKey b) = .eq ∧
        natListCompare (tertiaryKey a) (tertiaryKey b) ≠ .gt)) := by
  rw [localeCompare]
  cases natListCompare (primaryKey a) (primaryKey b) <;> simp
  all_goals cases natListCompare (tertiaryKey a) (tertiaryKey b) <;> simp

theorem localeCompare_le_total (a b : String) :
    localeCompare a b ≤ 0 ∨ localeCompare b a ≤ 0 := by
  rw [localeCompare_le_iff, localeCompare_le_iff]
  rw [natListCompare_swap (primaryKey a) (primaryKey b),
      natListCompare_swap (tertiaryKey a) (tertiaryKey b)]
  cases natListCompare (primaryKey a) (primaryKey b) <;> simp [Ordering.swap]
  all_goals cases natListCompare (tertiaryKey a) (tertiaryKey b) <;> simp [Ordering.swap]

theorem localeCompare_le_trans {a b c : String} (h1 : localeCompare a b ≤ 0)
    (h2 : localeCompare b c ≤ 0) : localeCompare a c ≤ 0 := by
  rw [localeCompare_le_iff] at h1 h2 ⊢
  rcases h1 with h1 | ⟨h1e, h1t⟩
  · rcases h2 with h2 | ⟨h2e, h2t⟩
    · have hne : natListCompare (primaryKey a) (primaryKey c) ≠ .gt :=
        natListCompare_le_trans (primaryKey a) (primaryKey b) (primaryKey c)
          (by simp [h1]) (by simp [h2])
      have hneq : natListCompare (primaryKey a) (primaryKey c) ≠ .eq := by
        intro he
        have hac := (natListCompare_eq_iff _ _).1 he
        rw [← hac, natListCompare_swap, h1] at h2
        simp [Ordering.swap] at h2
      left
      cases hx : natListCompare (primaryKey a) (primaryKey c) <;> simp_all
    · have hbc := (natListCompare_eq_iff _ _).1 h2e
      left
      rw [← hbc]
      exact h1
  · have hab := (natListCompare_eq_iff _ _).1 h1e
    rcases h2 with h2 | ⟨h2e, h2t⟩
    · left
      rw [hab]
      exact h2
    · have hbc := (natListCompare_eq_iff _ _).1 h2e
      right
      refine ⟨by rw [hab, hbc]; exact (natListCompare_eq_iff _ _).2 rfl, ?_⟩
      exact natListCompare_le_trans _ _ _ h1t h2t

instance : IsTotal JsValue methodLe :=
  ⟨fun a b => localeCompare_le_total (itemName a) (itemName b)⟩

instance : IsTrans JsValue methodLe :=
  ⟨fun _ _ _ => localeCompare_le_trans⟩

def charListLexLe : List Char → List Char → Bool
  | [], _ => true
  | _ :: _, [] => false
  | a :: as, b :: bs =>
      if a.toNat < b.toNat then true
      else if b.toNat < a.toNat then false
      else charListLexLe as bs

/-- Code-unit lexicographic order on strings: the "lexicographic,
case-sensitive, ascending" comparison named by the specification (stated
from the spec for comparison against the comparator the code uses). -/
def lexLe (a b : String) : Bool := charListLexLe a.data b.data

/-- A minimal retained ABI entry, used as concrete input below. -/
def sampleMethodItem (n : String) : JsValue :=
  JsValue.vObj [("type", JsValue.vStr "function"), ("name", JsValue.vStr n),
    ("inputs", JsValue.vArr []), ("outputs", JsValue.vArr []),
    ("stateMutability", JsValue.vStr "view")]

/-- A pre-existing history entry, used as concrete input below. -/
def sampleOldResult : MethodResult :=
  { methodName := "m", timestamp := "t0", result := "old", error := false }

/- ### History lemmas -/

theorem take_append_take {α : Type} (x y : List α) (n : Nat) :
    (x ++ y.take n).take n = (x ++ y).take n := by
  rw [List.take_append_eq_append_take, List.take_append_eq_append_take, List.take_take]
  congr 1
  rw [Nat.min_eq_left (Nat.sub_le n x.length)]

theorem foldl_addResult (rs : List MethodResult) :
    ∀ h : List MethodResult, h.length ≤ 10 →
      rs.foldl (fun acc r => addResult r acc) h = (rs.reverse ++ h).take 10 := by
  induction rs with
  | nil =>
      intro h hlen
      simp [List.take_of_length_le hlen]
  | cons r rest ih =>
      intro h hlen
      rw [List.foldl_cons]
      have hlen2 : (addResult r h).length ≤ 10 := by
        rw [addResult]
        simp [List.length_take]
      rw [ih (addResult r h) hlen2]
      rw [addResult]
      calc (rest.reverse ++ (r :: h).take 10).take 10
      _ = (rest.reverse ++ (r :: h)).take 10 := take_append_take _ _ 10
      _ = ((r :: rest).reverse ++ h).take 10 := by simp

/- ### Claim theorems -/

/-- C1 (counterexample): `formatResult` can throw on a well-formed pair —
a string-typed output whose decoded value is the string `"1.5"` reaches
line 187's `BigInt(result)` (the string is numeric-looking but not an
integer literal), which throws instead of falling back to `String(result)`. -/
theorem formatResult_throws_on_decimal_string_cex :
    formatResult (JsValue.vStr "1.5")
      (Sum.inl (ContractMethodOutput.mk "s" "string" none)) = none := by
  simp [formatResult, formatResultScalar, JsValue.isNullish]
  decide

/-- C1 (witness): a concrete safe pair on which the amended theorem applies. -/
theorem formatResult_isSome_of_safe_witness :
    jsSafe (JsValue.vObj [("0", JsValue.vBigInt 1)]) = true ∧
    (formatResult (JsValue.vObj [("0", JsValue.vBigInt 1)])
        (Sum.inr [ContractMethodOutput.mk "a" "uint256" none])).isSome = true :=
  ⟨by decide, formatResult_isSome_of_safe _ _ (by decide)⟩

/-- C2: on an array of tuples the tuple branch's line-153 test already
catches the array, so the value is formatted as a single tuple — component
`x` is bound to the whole first element — instead of the bracketed,
newline-joined per-element list the (unreachable) lines 168-171 would
produce. -/
theorem formatResult_arrayOfTuples_as_single_tuple :
    formatResult
      (JsValue.vArr [JsValue.vArr [JsValue.vBigInt 1], JsValue.vArr [JsValue.vBigInt 2]])
      (Sum.inl (ContractMethodOutput.mk "t" "tuple"
        (some [ContractMethodOutput.mk "x" "uint256" none]))) =
    some "\x7b\n  x: [ 1 ]\n\x7d" := by
  have hr : Nat.repr 0 = "0" := by decide
  have h0 : parseArrayIndex "0" = some 0 := by decide
  simp [formatResult, formatTupleComps, formatArrayElems, formatRootSlots,
    tupleComponentValue, jsGet, jsCoalesce, formatResultScalar,
    JsValue.isNullish, JsValue.isObjectLike, ContractMethodOutput.name,
    jsToString, hr, h0]
  decide

/-- C3 (counterexample): with one older entry in the history, the
confirmation update drops the just-added "submitted" record (the head),
not the oldest entry — the final history is `[confirmed, old]`, while the
claim's mechanism (remove the oldest, keep the submitted record) would give
`[confirmed, submitted]`. -/
theorem mutatingCall_drops_submitted_not_oldest_cex :
    (mutatingCallResults "m" "t1" "t2" "0xaa" "0xaa" "7" "21000" [sampleOldResult]).2 =
      [confirmedRecord "m" "t2" "0xaa" "7" "21000", sampleOldResult] ∧
    submittedRecord "m" "t1" "0xaa" ∉
      (mutatingCallResults "m" "t1" "t2" "0xaa" "0xaa" "7" "21000" [sampleOldResult]).2 ∧
    sampleOldResult ∈
      (mutatingCallResults "m" "t1" "t2" "0xaa" "0xaa" "7" "21000" [sampleOldResult]).2 := by
  decide

/-- C3 (amended): a successful state-mutating call produces exactly two
successive history updates: first the "submitted" record (with the
transaction hash) is prepended under the cap, then the "confirmed" record
(block number and gas used) replaces it by removing the most recent entry
— the just-added "submitted" record — while the rest of the history,
including its oldest retained entry, is kept. -/
theorem mutatingCallResults_spec
    (methodName ts1 ts2 txHash receiptHash blockNumber gasUsed : String)
    (prev : List MethodResult) :
    (mutatingCallResults methodName ts1 ts2 txHash receiptHash blockNumber gasUsed prev).1 =
      submittedRecord methodName ts1 txHash :: prev.take 9 ∧
    (mutatingCallResults methodName ts1 ts2 txHash receiptHash blockNumber gasUsed prev).2 =
      confirmedRecord methodName ts2 receiptHash blockNumber gasUsed :: prev.take 9 := by
  simp [mutatingCallResults, addResult, confirmResult]

/-- C4 (counterexample): the filter checks only `typeof item.name === 'string'`,
so a function entry whose name is the empty string is retained, contradicting
the claim's "name is a non-empty string". -/
theorem contractMethods_retains_empty_name_cex :
    contractMethods [sampleMethodItem ""] = [sampleMethodItem ""] ∧
    itemName (sampleMethodItem "") = "" ∧
    isFunctionItem (sampleMethodItem "") = true := by
  decide

/-- C4 (amended): the derived list contains exactly the entries of the
parsed ABI where `type === "function"`, `name` is a string (possibly
empty), `inputs` and `outputs` are arrays, and `stateMutability` is a
string; every other entry is dropped.  (Exactly: the output is a
permutation of the filtered input, and membership is characterised.) -/
theorem contractMethods_retains_exactly_function_entries (parsedAbi : List JsValue) :
    (contractMethods parsedAbi).Perm (parsedAbi.filter isFunctionItem) ∧
    ∀ x, x ∈ contractMethods parsedAbi ↔ x ∈ parsedAbi ∧ isFunctionItem x = true := by
  constructor
  · rw [contractMethods]
    exact List.perm_insertionSort methodLe _
  · intro x
    rw [contractMethods]
    rw [List.Perm.mem_iff (List.perm_insertionSort methodLe _)]
    simp [List.mem_filter]

/-- C5 (counterexample): the comparator is `localeCompare`, not code-unit
lexicographic comparison: the derived list puts the function named `"a"`
before the one named `"B"`, yet `"a"` is not lexicographically at most
`"B"` (code unit 97 vs 66), so the output is not sorted by case-sensitive
lexicographic comparison ascending. -/
theorem contractMethods_not_codeunit_sorted_cex :
    contractMethods [sampleMethodItem "B", sampleMethodItem "a"] =
      [sampleMethodItem "a", sampleMethodItem "B"] ∧
    lexLe (itemName (sampleMethodItem "a")) (itemName (sampleMethodItem "B")) = false := by
  decide

/-- C5 (amended): the derived list is sorted ascending by the
locale-default comparator (`localeCompare`: case-insensitive primary
ordering, lowercase-first tiebreak), contains exactly the filtered
entries, and — being a pure function of the parsed ABI — re-derivation
from the same input yields the same ordered list. -/
theorem contractMethods_sorted_by_localeCompare (parsedAbi : List JsValue) :
    (contractMethods parsedAbi).Sorted methodLe ∧
    (contractMethods parsedAbi).Perm (parsedAbi.filter isFunctionItem) := by
  constructor
  · rw [contractMethods]
    exact List.sorted_insertionSort methodLe _
  · rw [contractMethods]
    exact List.perm_insertionSort methodLe _

/-- C6: the result history is bounded: it never exceeds 10 entries after
any sequence of operations from a fresh session; each new result is
prepended (it becomes the head); and after 11 successive results from any
starting history within the cap, exactly the 10 most recent (in completion
order) remain. -/
theorem resultsHistory_bounded :
    (∀ ops : List HistoryOp, (applyHistoryOps ops).length ≤ 10) ∧
    (∀ (r : MethodResult) (prev : List MethodResult),
        (addResult r prev).head? = some r) ∧
    (∀ (rs h : List MethodResult), h.length ≤ 10 → rs.length = 11 →
        rs.foldl (fun acc r => addResult r acc) h = rs.reverse.take 10) := by
  refine ⟨?_, ?_, ?_⟩
  · intro ops
    rw [applyHistoryOps]
    have aux : ∀ (ops : List HistoryOp) (h : List MethodResult), h.length ≤ 10 →
        (ops.foldl applyHistoryOp h).length ≤ 10 := by
      intro ops
      induction ops with
      | nil => intro h hh; simpa using hh
      | cons op rest ih =>
          intro h hh
          rw [List.foldl_cons]
          apply ih
          cases op with
          | add r => rw [applyHistoryOp, addResult]; simp [List.length_take]
          | confirm u => rw [applyHistoryOp, confirmResult]; simp; omega
          | reset => rw [applyHistoryOp]; simp
    exact aux ops [] (by simp)
  · intro r prev
    rw [addResult]
    rfl
  · intro rs h hh hlen
    rw [foldl_addResult rs h hh]
    rw [List.take_append_of_le_length]
    simp [hlen]

/-- C6 (witness): a fresh session, one concrete operation sequence, and
eleven concrete results. -/
theorem resultsHistory_bounded_witness :
    ([] : List MethodResult).length ≤ 10 ∧
    ((List.range 11).map (fun i => MethodResult.mk "m" (Nat.repr i) "r" false)).foldl
        (fun acc r => addResult r acc) [] =
      ((List.range 11).map (fun i => MethodResult.mk "m" (Nat.repr i) "r" false)).reverse.take 10 := by
  refine ⟨by decide, ?_⟩
  exact resultsHistory_bounded.2.2 _ [] (by decide) (by decide)

/-- C7: when the signer is connected and both fields are filled but the ABI
text is not valid JSON (`JSON.parse` threw, passed here as `none`),
derivation fails with the parse-error message and the previously derived
method list (and contract binding) is cleared; moreover with a parse
failure every path leaves a non-empty user-visible error and an empty
method list. -/
theorem generateContract_parse_failure :
    (∀ (abi contractAddress : String) (st : AppState), abi ≠ "" → contractAddress ≠ "" →
        generateContract true abi contractAddress none st =
          { st with error := "Invalid ABI format", contract := false, methods := [] }) ∧
    (∀ (signer : Bool) (abi contractAddress : String) (st : AppState),
        (generateContract signer abi contractAddress none st).methods = [] ∧
        (generateContract signer abi contractAddress none st).error ≠ "") := by
  constructor
  · intro abi contractAddress st habi haddr
    rw [generateContract]
    simp [habi, haddr]
  · intro signer abi contractAddress st
    rw [generateContract]
    by_cases hsig : signer = false
    · simp [hsig]
    · by_cases habi : abi = ""
      · simp [hsig, habi]
      · by_cases haddr : contractAddress = ""
        · simp [hsig, habi, haddr]
        · simp [hsig, habi, haddr]

/-- C7 (witness): concrete invalid-JSON derivation. -/
theorem generateContract_parse_failure_witness :
    generateContract true "not json" "0x1"
        none (AppState.mk true [sampleMethodItem "foo"] "" [] "" false) =
      { AppState.mk true [sampleMethodItem "foo"] "" [] "" false with
          error := "Invalid ABI format", contract := false, methods := [] } ∧
    (generateContract true "not json" "0x1" none
        (AppState.mk true [sampleMethodItem "foo"] "" [] "" false)).methods = [] := by
  refine ⟨generateContract_parse_failure.1 "not json" "0x1" _ (by decide) (by decide), ?_⟩
  exact (generateContract_parse_failure.2 true "not json" "0x1" _).1

/-- C8 (counterexample): a wallet-absent failure (`signer` missing) in
`generateContract` is a ConnectionError per the spec's taxonomy, yet it
clears the already-derived method list: with one derived method in state,
the method list afterwards is empty, not unchanged. -/
theorem generateContract_wallet_absent_clears_methods_cex :
    (generateContract false "[]" "0x1" (some [])
        (AppState.mk true [sampleMethodItem "foo"] "" [] "" false)).methods = [] ∧
    (AppState.mk true [sampleMethodItem "foo"] "" [] "" false).methods ≠ [] := by
  decide

/-- C8 (amended): an endpoint-unreachable ConnectionError (the custom-RPC
connection test failing) is surfaced inline and leaves the derived method
list unchanged; a wallet-absent failure during derivation, however, clears
the method list like every other derivation failure. -/
theorem connectionFailure_method_list :
    (∀ (url errMsg : String) (st : AppState),
        (handleCustomRpcChange url false errMsg st).methods = st.methods) ∧
    (∀ (url errMsg : String) (st : AppState), url ≠ "" →
        (handleCustomRpcChange url false errMsg st).error = "Invalid RPC URL or " ++ errMsg) ∧
    (∀ (abi contractAddress : String) (parsedAbi : Option (List JsValue)) (st : AppState),
        (generateContract false abi contractAddress parsedAbi st).methods = []) := by
  refine ⟨?_, ?_, ?_⟩
  · intro url errMsg st
    rw [handleCustomRpcChange]
    by_cases hurl : url = "" <;> by_cases hok : (false : Bool) = true <;> simp [hurl, hok]
  · intro url errMsg st hurl
    rw [handleCustomRpcChange]
    simp [hurl]
  · intro abi contractAddress parsedAbi st
    rw [generateContract.eq_def]
    simp

/-- C8 (witness): concrete RPC failure leaving one derived method intact. -/
theorem connectionFailure_method_list_witness :
    (handleCustomRpcChange "http:bad" false "no net"
        (AppState.mk true [sampleMethodItem "foo"] "" [] "" false)).methods =
      [sampleMethodItem "foo"] ∧
    (handleCustomRpcChange "http:bad" false "no net"
        (AppState.mk true [sampleMethodItem "foo"] "" [] "" false)).error =
      "Invalid RPC URL or no net" :=
  ⟨connectionFailure_method_list.1 "http:bad" "no net" _,
   connectionFailure_method_list.2.1 "http:bad" "no net" _ (by decide)⟩

/-- C10: a successful derivation (signer present, both fields filled, parse
succeeded) installs the contract binding and the sorted method list, clears
the error banner, and resets the result history to empty — no previously
recorded result entry survives. -/
theorem generateContract_success_resets (abi contractAddress : String)
    (items : List JsValue) (st : AppState) (habi : abi ≠ "") (haddr : contractAddress ≠ "") :
    generateContract true abi contractAddress (some items) st =
      { st with contract := true, methods := contractMethods items,
                error := "", results := [] } := by
  rw [generateContract]
  simp [habi, haddr]

/-- C10 (witness): a concrete successful re-derivation discarding a
previous result entry. -/
theorem generateContract_success_resets_witness :
    generateContract true "[]" "0x1" (some [sampleMethodItem "foo"])
        (AppState.mk false [] "old error" [sampleOldResult] "" false) =
      { AppState.mk false [] "old error" [sampleOldResult] "" false with
          contract := true, methods := contractMethods [sampleMethodItem "foo"],
          error := "", results := [] } :=
  generateContract_success_resets "[]" "0x1" [sampleMethodItem "foo"] _
    (by decide) (by decide)

theorem utf16Length_append (a b : String) :
    utf16Length (a ++ b) = utf16Length a + utf16Length b := by
  rw [utf16Length, utf16Length, utf16Length, String.data_append]
  simp

theorem utf16Length_padEnd_zero (s : String) (t : Nat) :
    utf16Length (padEnd s t '0') = utf16Length s + (t - utf16Length s) := by
  rw [padEnd, utf16Length_append]
  congr 1
  rw [utf16Length]
  simp

/-- C9: `bytes32` coercion — the empty string becomes the 32-byte zero
word; a 66-unit `0x`-prefixed string passes through unchanged; a shorter
`0x`-prefixed string has the tail after `0x` right-padded with `'0'` hex
digits so that the result is 66 units (`"0xabc"` becomes `"0xabc"` followed
by 61 zeros); non-hex text is UTF-8 encoded, hex encoded, and right-padded
to 66 units.  (The fallback to the zero word on encoding failure is
unreachable here: Lean strings carry no lone surrogates, the only inputs on
which `ethers.toUtf8Bytes` throws.) -/
theorem coerceBytes32_spec :
    coerceBytes32 "" = zeroHash ∧
    (∀ s, jsStartsWith s "0x" = true → utf16Length s = 66 → coerceBytes32 s = s) ∧
    (∀ s, jsStartsWith s "0x" = true → utf16Length s < 66 →
        coerceBytes32 s = "0x" ++ padEnd (String.mk (s.data.drop 2)) 64 '0' ∧
        utf16Length (coerceBytes32 s) = 66) ∧
    coerceBytes32 "0xabc" =
      "0xabc0000000000000000000000000000000000000000000000000000000000000" ∧
    (∀ s, s ≠ "" → jsStartsWith s "0x" = false →
        coerceBytes32 s = padEnd (hexlify (toUtf8Bytes s)) 66 '0') := by
  refine ⟨by decide, ?_, ?_, by decide, ?_⟩
  · intro s hpre hlen
    have hne : s ≠ "" := by
      intro h
      subst h
      simp [utf16Length] at hlen
    rw [coerceBytes32]
    simp [hne, hpre, hlen]
  · intro s hpre hlen
    obtain ⟨rest, hdata⟩ : ∃ rest, s.data = '0' :: 'x' :: rest := by
      rw [jsStartsWith] at hpre
      cases hd : s.data with
      | nil => rw [hd] at hpre; simp [charListPrefix] at hpre
      | cons c1 tl =>
          cases ht : tl with
          | nil =>
              rw [hd, ht] at hpre
              simp [charListPrefix] at hpre
          | cons c2 rest =>
              rw [hd, ht] at hpre
              simp [charListPrefix] at hpre
              exact ⟨rest, by rw [← hpre.1, ← hpre.2]⟩
    have hne : s ≠ "" := by
      intro h
      subst h
      simp at hdata
    have hs66 : ¬(utf16Length s = 66) := by omega
    have hcoerce : coerceBytes32 s = "0x" ++ padEnd (String.mk (s.data.drop 2)) 64 '0' := by
      rw [coerceBytes32]
      simp [hne, hpre, hs66]
    refine ⟨hcoerce, ?_⟩
    rw [hcoerce, utf16Length_append, utf16Length_padEnd_zero]
    have htail : utf16Length (String.mk (s.data.drop 2)) = utf16Length s - 2 := by
      rw [utf16Length, utf16Length, hdata]
      simp
      omega
    have h2 : utf16Length "0x" = 2 := by decide
    rw [h2, htail]
    have hslen : 2 ≤ utf16Length s := by
      rw [utf16Length, hdata]
      simp
      omega
    omega
  · intro s hne hpre
    rw [coerceBytes32]
    simp [hne, hpre]

/-- C9 (witness): concrete inputs for the three conditional cases — the
zero word passes through, `"0xabc"` (length check included), and plain
text. -/
theorem coerceBytes32_spec_witness :
    coerceBytes32 zeroHash = zeroHash ∧
    utf16Length (coerceBytes32 "0xabc") = 66 ∧
    coerceBytes32 "hi" = padEnd (hexlify (toUtf8Bytes "hi")) 66 '0' :=
  ⟨coerceBytes32_spec.2.1 zeroHash (by decide) (by decide),
   (coerceBytes32_spec.2.2.1 "0xabc" (by decide) (by decide)).2,
   coerceBytes32_spec.2.2.2.2 "hi" (by decide) (by decide)⟩
